import Mathlib

/-!
Shallow embedding of the quiz presenter's core logic (TypeScript/React
single-page app, files `src/unnamed/part_000` and `src/unnamed/part_001`).

The two source files are two variants of the same component; the session
logic embedded here follows `part_001`, which carries the eager
per-question background assignment (`createBackgroundMap`); the functions
`shuffle`, `loadJsonWithFallback`, `normalizeQuestions`, `handleOptionClick`
and the position/selection behaviour of `handleNext` / `handleRestart` are
textually identical in both variants.

Modelling conventions:
* JavaScript strings are Lean `String`s; `String.prototype.trim` is
  modelled by `jsTrim` (drop whitespace from both ends).
* The TS types declare `question` / `options` / `text` as required, but
  the code defends against their absence with `?.` and `??`; the record
  types here therefore make those fields `Option`s, matching the runtime
  shape the code actually handles.
* `Math.random()` draws are modelled by an oracle `rand : Nat → Nat`;
  `Math.floor(Math.random() * n)` becomes `rand i % n`, which like the
  source always lands in `[0, n)`.
* A `fetch` of one candidate source is modelled by its observable outcome:
  `some v` for a response indicating success whose body parses to `v`,
  `none` for a response that does not indicate success.
* React state updates become pure functions `Session → Session`.
-/

namespace Quiz

/-- JavaScript `String.prototype.trim`: remove whitespace characters from
both ends of the string. -/
def jsTrim (s : String) : String :=
  String.mk (((s.data.dropWhile Char.isWhitespace).reverse.dropWhile
    Char.isWhitespace).reverse)

/-- One answer option as it occurs in the raw JSON: `{ text, right? }`,
with `text` possibly absent at runtime. -/
structure QuestionOption where
  text : Option String
  right : Option Bool
  deriving DecidableEq, Repr

/-- One question record: `{ question, options }`, with both fields possibly
absent at runtime. -/
structure Question where
  question : Option String
  options : Option (List QuestionOption)
  deriving DecidableEq, Repr

/-- The `LoadState` union type: `"loading" | "ready" | "error"`. -/
inductive LoadState where
  | loading
  | ready
  | error
  deriving DecidableEq, Repr

/-- Swap the entries at positions `i` and `j` of a list, the identity when
either index is out of bounds (the source's destructuring swap
`[r[i], r[j]] = [r[j], r[i]]` is only reached in bounds). -/
def listSwap {α : Type _} (l : List α) (i j : Nat) : List α :=
  match l[i]?, l[j]? with
  | some x, some y => (l.set i y).set j x
  | _, _ => l

/-- The Fisher–Yates loop of `shuffle`: `for (let i = length-1; i > 0; i--)`
swap position `i` with position `rand i % (i+1)`.  The first argument is the
current loop counter `i`. -/
def fyLoop {α : Type _} (rand : Nat → Nat) : Nat → List α → List α
  | 0, l => l
  | i + 1, l => fyLoop rand i (listSwap l (i + 1) (rand (i + 1) % (i + 2)))

/-- `shuffle`: copy the input and run the Fisher–Yates loop from index
`length - 1` down to `1`. -/
def shuffle {α : Type _} (rand : Nat → Nat) (items : List α) : List α :=
  fyLoop rand (items.length - 1) items

/-- `loadJsonWithFallback`: try each candidate source in order; return the
parsed body of the first response indicating success, otherwise throw
`Error("Unable to load JSON")`. -/
def loadJsonWithFallback {α : Type _} (responses : List (Option α)) :
    Except String α :=
  match responses with
  | [] => Except.error "Unable to load JSON"
  | some v :: _ => Except.ok v
  | none :: rest => loadJsonWithFallback rest

/-- The per-option step of `normalizeQuestions`:
`{ text: option.text?.trim() ?? "", right: option.right }`. -/
def normalizeOption (o : QuestionOption) : QuestionOption :=
  { text := some ((o.text.map jsTrim).getD ""), right := o.right }

/-- The per-record step of `normalizeQuestions`:
`{ question: entry.question?.trim() ?? "", options: entry.options?.map(...) ?? [] }`. -/
def normalizeEntry (q : Question) : Question :=
  { question := some ((q.question.map jsTrim).getD ""),
    options := some ((q.options.getD []).map normalizeOption) }

/-- The filter predicate of `normalizeQuestions`:
`entry.question && entry.options.length === 4` (a string is truthy exactly
when it is non-empty). -/
def keepQuestion (q : Question) : Bool :=
  !(q.question.getD "").isEmpty && (q.options.getD []).length == 4

/-- `normalizeQuestions`: map each raw record through the trimming step,
then keep only records with a truthy (non-empty) prompt and exactly four
options. -/
def normalizeQuestions (raw : List Question) : List Question :=
  (raw.map normalizeEntry).filter keepQuestion

/-- `createBackgroundMap` (part_001): an all-`null` array of length `count`
when the background pool is empty, otherwise `count` independent uniform
picks from the pool. -/
def createBackgroundMap (rand : Nat → Nat) (count : Nat)
    (backgrounds : List String) : List (Option String) :=
  if backgrounds.length = 0 then
    List.replicate count none
  else
    (List.range count).map fun k => backgrounds[rand k % backgrounds.length]?

/-- The component state of the part_001 `App`: load state, shuffled
question list, background pool, eager per-question background assignment,
current position, current selection and error message. -/
structure Session where
  state : LoadState
  questions : List Question
  backgrounds : List String
  backgroundMap : List (Option String)
  currentIndex : Nat
  selectedIndex : Option Nat
  errorMessage : String
  deriving DecidableEq, Repr

/-- The initial component state (`useState` initialisers). -/
def initialSession : Session :=
  { state := LoadState.loading, questions := [], backgrounds := [],
    backgroundMap := [], currentIndex := 0, selectedIndex := none,
    errorMessage := "" }

/-- Derived view fact `currentQuestion = questions[currentIndex]`
(`undefined` out of bounds). -/
def currentQuestion (s : Session) : Option Question :=
  s.questions[s.currentIndex]?

/-- Derived view fact `total = questions.length`. -/
def total (s : Session) : Nat :=
  s.questions.length

/-- Derived view fact `answered = selectedIndex !== null`. -/
def answered (s : Session) : Bool :=
  s.selectedIndex.isSome

/-- The `load` effect: fetch questions and backgrounds concurrently, with
the background failure absorbed to `[]` by `.catch(() => [])`; normalize
and shuffle the questions, assign backgrounds, and become `ready` exactly
when at least one question survived, `error` otherwise.  A failure of the
question resource is caught and surfaces the thrown message. -/
def load (qres : List (Option (List Question)))
    (bres : List (Option (List String)))
    (qrand brand : Nat → Nat) (s : Session) : Session :=
  match loadJsonWithFallback qres with
  | Except.error msg =>
    { s with state := LoadState.error, errorMessage := msg }
  | Except.ok rawQuestions =>
    let backgroundList :=
      match loadJsonWithFallback bres with
      | Except.ok bs => bs
      | Except.error _ => []
    let shuffled := shuffle qrand (normalizeQuestions rawQuestions)
    { s with
      questions := shuffled,
      backgrounds := backgroundList,
      backgroundMap := createBackgroundMap brand shuffled.length backgroundList,
      state := if shuffled.length != 0 then LoadState.ready else LoadState.error,
      errorMessage :=
        if shuffled.length != 0 then s.errorMessage
        else "Нет подходящих вопросов в файле." }

/-- `handleOptionClick(index)`: a no-op when `answered || !currentQuestion`,
otherwise record the selection. -/
def handleOptionClick (s : Session) (index : Nat) : Session :=
  if s.selectedIndex.isSome || (s.questions[s.currentIndex]?).isNone then s
  else { s with selectedIndex := some index }

/-- `handleNext()`: jump to `total` (finished) and clear the selection when
`currentIndex + 1 >= total`, otherwise increment the position and clear the
selection. -/
def handleNext (s : Session) : Session :=
  if s.currentIndex + 1 ≥ s.questions.length then
    { s with currentIndex := s.questions.length, selectedIndex := none }
  else
    { s with currentIndex := s.currentIndex + 1, selectedIndex := none }

/-- `handleRestart()`: reshuffle the questions already held (no fetch),
regenerate the background assignment from the held pool, reset the position
to `0` and clear the selection. -/
def handleRestart (qrand brand : Nat → Nat) (s : Session) : Session :=
  let shuffled := shuffle qrand s.questions
  { s with
    questions := shuffled,
    backgroundMap := createBackgroundMap brand shuffled.length s.backgrounds,
    currentIndex := 0,
    selectedIndex := none }

/-- A well-formed sample question record: non-empty prompt, four options. -/
def sampleQuestion : Question :=
  { question := some "Sample",
    options := some
      [{ text := some "a", right := some true },
       { text := some "b", right := none },
       { text := some "c", right := none },
       { text := some "d", right := none }] }

/-- A sample record whose four option texts are all blank after trimming. -/
def blankOptionsQuestion : Question :=
  { question := some "  Q ",
    options := some
      [{ text := some "   ", right := none },
       { text := some " ", right := none },
       { text := none, right := some false },
       { text := some "", right := none }] }

/-- A sample ready session holding two questions, with a selection active. -/
def sampleSession : Session :=
  { state := LoadState.ready, questions := [sampleQuestion, sampleQuestion],
    backgrounds := [], backgroundMap := [none, none], currentIndex := 0,
    selectedIndex := some 1, errorMessage := "" }

/-- The sample session driven to the finished state (`position = total`). -/
def finishedSession : Session :=
  { sampleSession with currentIndex := 2, selectedIndex := none }

/-! ## Permutation lemmas for the Fisher–Yates shuffle -/

/-- Re-inserting an element read at position `j` in front of the list with
position `j` overwritten is a permutation of pushing the new element in
front of the original list. -/
theorem cons_set_perm {α : Type _} :
    ∀ (l : List α) (j : Nat) (y a : α), l[j]? = some y →
      List.Perm (y :: l.set j a) (a :: l)
  | [], _, _, _, h => by simp at h
  | b :: t, 0, y, a, h => by
    simp only [List.getElem?_cons_zero, Option.some.injEq] at h
    subst h
    simpa using List.Perm.swap a b t
  | b :: t, j + 1, y, a, h => by
    simp only [List.getElem?_cons_succ] at h
    have ih := cons_set_perm t j y a h
    simp only [List.set_cons_succ]
    exact (List.Perm.swap b y _).trans ((ih.cons b).trans (List.Perm.swap a b t))

/-- Exchanging the values at two in-bounds positions of a list yields a
permutation of the list. -/
theorem set_set_perm {α : Type _} :
    ∀ (l : List α) (i j : Nat) (x y : α), l[i]? = some x → l[j]? = some y →
      List.Perm ((l.set i y).set j x) l
  | [], _, _, _, _, hi, _ => by simp at hi
  | a :: t, 0, 0, x, y, hi, hj => by
    simp only [List.getElem?_cons_zero, Option.some.injEq] at hi hj
    subst hi; subst hj
    simp
  | a :: t, 0, j + 1, x, y, hi, hj => by
    simp only [List.getElem?_cons_zero, Option.some.injEq] at hi
    simp only [List.getElem?_cons_succ] at hj
    subst hi
    simpa using cons_set_perm t j y a hj
  | a :: t, i + 1, 0, x, y, hi, hj => by
    simp only [List.getElem?_cons_zero, Option.some.injEq] at hj
    simp only [List.getElem?_cons_succ] at hi
    subst hj
    simpa using cons_set_perm t i x a hi
  | a :: t, i + 1, j + 1, x, y, hi, hj => by
    simp only [List.getElem?_cons_succ] at hi hj
    simpa using (set_set_perm t i j x y hi hj).cons a

/-- A single swap step of the shuffle permutes the list. -/
theorem listSwap_perm {α : Type _} (l : List α) (i j : Nat) :
    List.Perm (listSwap l i j) l := by
  unfold listSwap
  split
  next x y hx hy => exact set_set_perm l i j x y hx hy
  next => exact List.Perm.refl l

/-- Every run of the Fisher–Yates loop permutes its input. -/
theorem fyLoop_perm {α : Type _} (rand : Nat → Nat) :
    ∀ (i : Nat) (l : List α), List.Perm (fyLoop rand i l) l
  | 0, l => List.Perm.refl l
  | i + 1, l =>
    (fyLoop_perm rand i _).trans (listSwap_perm l (i + 1) (rand (i + 1) % (i + 2)))

/-- C4: for every input sequence (and every draw oracle), `shuffle` returns
a permutation of the input — the same elements with the same
multiplicities.  Non-mutation of the input is inherent in the embedding:
`shuffle` is a pure function of its argument, mirroring the source's copy
`[...items]` before the swap loop. -/
theorem shuffle_perm {α : Type _} (rand : Nat → Nat) (items : List α) :
    List.Perm (shuffle rand items) items :=
  fyLoop_perm rand (items.length - 1) items

/-! ## Fallback loading -/

/-- C1: `loadJsonWithFallback` attempts the candidates in order — when every
candidate before a successful one fails, the parsed body of that first
successful candidate is returned — and it throws (`Unable to load JSON`)
exactly when no candidate succeeds. -/
theorem loadJsonWithFallback_firstSuccess {α : Type _}
    (pre post rs : List (Option α)) (v : α) :
    ((∀ x ∈ pre, x = none) →
      loadJsonWithFallback (pre ++ some v :: post) = Except.ok v)
  ∧ ((∀ x ∈ rs, x = none) →
      loadJsonWithFallback rs = Except.error "Unable to load JSON")
  ∧ (∀ msg, loadJsonWithFallback rs = Except.error msg → ∀ x ∈ rs, x = none) := by
  refine ⟨?_, ?_, ?_⟩
  · induction pre with
    | nil => intro _; rfl
    | cons a t ih =>
      intro hpre
      have ha : a = none := hpre a (by simp)
      subst ha
      simpa [loadJsonWithFallback] using ih fun x hx => hpre x (by simp [hx])
  · induction rs with
    | nil => intro _; rfl
    | cons a t ih =>
      intro hrs
      have ha : a = none := hrs a (by simp)
      subst ha
      simpa [loadJsonWithFallback] using ih fun x hx => hrs x (by simp [hx])
  · induction rs with
    | nil => intro _ _ x hx; simp at hx
    | cons a t ih =>
      intro msg hmsg
      cases a with
      | some v => simp [loadJsonWithFallback] at hmsg
      | none =>
        intro x hx
        rcases List.mem_cons.mp hx with h | h
        · exact h
        · exact ih msg (by simpa [loadJsonWithFallback] using hmsg) x h

/-- Witness for C1: with the first candidate failing and the second
succeeding with body `7`, the call returns `7`; with both candidates
failing, it throws. -/
theorem loadJsonWithFallback_firstSuccess_witness :
    loadJsonWithFallback [none, some 7, none] = Except.ok 7
  ∧ loadJsonWithFallback ([none, none] : List (Option Nat)) =
      Except.error "Unable to load JSON" :=
  ⟨(loadJsonWithFallback_firstSuccess [none] [none] [] 7).1 (by decide),
   (loadJsonWithFallback_firstSuccess [] [] [none, none] 7).2.1 (by decide)⟩

/-- Shuffling preserves the length of the list. -/
theorem shuffle_length {α : Type _} (rand : Nat → Nat) (l : List α) :
    (shuffle rand l).length = l.length :=
  (fyLoop_perm rand (l.length - 1) l).length_eq

/-! ## Background assignment -/

/-- C10: `createBackgroundMap` returns a list of length exactly `count`;
with an empty pool every entry is `null`, and with a non-empty pool every
entry is an element of the pool. -/
theorem createBackgroundMap_spec (rand : Nat → Nat) (count : Nat)
    (backgrounds : List String) :
    (createBackgroundMap rand count backgrounds).length = count
  ∧ (backgrounds = [] →
      ∀ x ∈ createBackgroundMap rand count backgrounds, x = none)
  ∧ (backgrounds ≠ [] →
      ∀ x ∈ createBackgroundMap rand count backgrounds,
        ∃ b ∈ backgrounds, x = some b) := by
  refine ⟨?_, ?_, ?_⟩
  · unfold createBackgroundMap
    split <;> simp
  · intro hb x hx
    subst hb
    simp [createBackgroundMap] at hx
    exact hx.2
  · intro hb x hx
    have hlen : 0 < backgrounds.length := List.length_pos.mpr hb
    unfold createBackgroundMap at hx
    rw [if_neg (by omega)] at hx
    obtain ⟨k, _, rfl⟩ := List.mem_map.mp hx
    have hmod : rand k % backgrounds.length < backgrounds.length :=
      Nat.mod_lt _ hlen
    rw [List.getElem?_eq_getElem hmod]
    exact ⟨_, List.getElem_mem hmod, rfl⟩

/-- Witness for C10: a pool of two names fills both positions with pool
elements, and the empty pool yields `null` at both positions. -/
theorem createBackgroundMap_spec_witness :
    (createBackgroundMap id 2 []).length = 2
  ∧ (∀ x ∈ createBackgroundMap id 2 [], x = none)
  ∧ (∀ x ∈ createBackgroundMap id 2 ["a.png", "b.png"],
      ∃ b ∈ ["a.png", "b.png"], x = some b) :=
  ⟨(createBackgroundMap_spec id 2 []).1,
   (createBackgroundMap_spec id 2 []).2.1 rfl,
   (createBackgroundMap_spec id 2 ["a.png", "b.png"]).2.2 (by decide)⟩

/-! ## Session state machine -/

/-- C3: in the ready state, `handleNext` moves position `k` to `k + 1` and
clears the selection when `k + 1 < total`, and moves it to `total` (the
finished state) clearing the selection when `k + 1 >= total` — in both
cases whatever the prior selection was. -/
theorem handleNext_spec (s : Session) (h : s.state = LoadState.ready) :
    (s.currentIndex + 1 < s.questions.length →
      handleNext s =
        { s with currentIndex := s.currentIndex + 1, selectedIndex := none })
  ∧ (s.currentIndex + 1 ≥ s.questions.length →
      handleNext s =
        { s with currentIndex := s.questions.length, selectedIndex := none }) := by
  constructor
  · intro hlt
    unfold handleNext
    rw [if_neg (by omega)]
  · intro hge
    unfold handleNext
    rw [if_pos hge]

/-- Witness for C3: with two questions, advancing from position `0` goes to
position `1`, and advancing from position `1` goes to the finished position
`2`; both advances clear the active selection `some 1`. -/
theorem handleNext_spec_witness :
    handleNext sampleSession =
      { sampleSession with currentIndex := 1, selectedIndex := none }
  ∧ handleNext { sampleSession with currentIndex := 1 } =
      { sampleSession with currentIndex := 2, selectedIndex := none } :=
  ⟨(handleNext_spec sampleSession rfl).1 (by decide),
   (handleNext_spec { sampleSession with currentIndex := 1 } rfl).2 (by decide)⟩

/-- C6: `handleOptionClick` records the selection exactly when no selection
exists and a current question exists; it is the identity when a selection
already exists or no current question exists, and a second click at the
same position never changes the state reached by the first click. -/
theorem handleOptionClick_spec (s : Session) (i j : Nat) :
    (s.selectedIndex = none → (s.questions[s.currentIndex]?).isSome →
      handleOptionClick s i = { s with selectedIndex := some i })
  ∧ (s.questions[s.currentIndex]? = none → handleOptionClick s i = s)
  ∧ (s.selectedIndex ≠ none → handleOptionClick s i = s)
  ∧ handleOptionClick (handleOptionClick s i) j = handleOptionClick s i := by
  refine ⟨?_, ?_, ?_, ?_⟩
  · intro hsel hq
    unfold handleOptionClick
    rw [if_neg (by simp [hsel, Option.isSome_iff_ne_none.mp hq])]
  · intro hq
    unfold handleOptionClick
    rw [if_pos (by simp [hq])]
  · intro hsel
    unfold handleOptionClick
    rw [if_pos (by simp [Option.isSome_iff_ne_none.mpr hsel])]
  · cases hsel : s.selectedIndex with
    | some v => simp [handleOptionClick, hsel]
    | none =>
      cases hq : s.questions[s.currentIndex]? with
      | none => simp [handleOptionClick, hsel, hq]
      | some q => simp [handleOptionClick, hsel, hq]

/-- Witness for C6: a first click on option `2` is recorded; a click with
the question list empty is ignored; a click while `some 1` is already
selected is ignored. -/
theorem handleOptionClick_spec_witness :
    handleOptionClick { sampleSession with selectedIndex := none } 2 =
      { sampleSession with selectedIndex := some 2 }
  ∧ handleOptionClick { sampleSession with questions := [], selectedIndex := none } 2 =
      { sampleSession with questions := [], selectedIndex := none }
  ∧ handleOptionClick sampleSession 2 = sampleSession :=
  ⟨(handleOptionClick_spec { sampleSession with selectedIndex := none } 2 0).1
      rfl (by decide),
   (handleOptionClick_spec
      { sampleSession with questions := [], selectedIndex := none } 2 0).2.1
      (by decide),
   (handleOptionClick_spec sampleSession 2 0).2.2.1 (by decide)⟩

/-- C5: from the finished state, `handleRestart` replaces the question list
with a permutation of the questions already held (no re-fetch is possible:
the transition consumes no resource responses and leaves the held
background pool untouched), resets the position to `0`, clears the
selection, keeps the session ready, and regenerates the per-question
background assignment from the held pool. -/
theorem handleRestart_spec (qrand brand : Nat → Nat) (s : Session)
    (h : s.state = LoadState.ready) (hfin : s.questions.length ≤ s.currentIndex) :
    List.Perm (handleRestart qrand brand s).questions s.questions
  ∧ (handleRestart qrand brand s).currentIndex = 0
  ∧ (handleRestart qrand brand s).selectedIndex = none
  ∧ (handleRestart qrand brand s).backgrounds = s.backgrounds
  ∧ (handleRestart qrand brand s).state = LoadState.ready
  ∧ (handleRestart qrand brand s).backgroundMap =
      createBackgroundMap brand (handleRestart qrand brand s).questions.length
        s.backgrounds :=
  ⟨fyLoop_perm qrand (s.questions.length - 1) s.questions, rfl, rfl, rfl, h, rfl⟩

/-- Witness for C5: restarting the finished sample session yields a
permutation of its two questions at position `0` with no selection, the
same (empty) pool, and a regenerated assignment. -/
theorem handleRestart_spec_witness :
    List.Perm (handleRestart id id finishedSession).questions
      finishedSession.questions
  ∧ (handleRestart id id finishedSession).currentIndex = 0
  ∧ (handleRestart id id finishedSession).selectedIndex = none
  ∧ (handleRestart id id finishedSession).backgrounds =
      finishedSession.backgrounds
  ∧ (handleRestart id id finishedSession).state = LoadState.ready
  ∧ (handleRestart id id finishedSession).backgroundMap =
      createBackgroundMap id (handleRestart id id finishedSession).questions.length
        finishedSession.backgrounds :=
  handleRestart_spec id id finishedSession rfl (by decide)

/-! ## The load transition -/

/-- The only message `loadJsonWithFallback` ever throws is
`Unable to load JSON`. -/
theorem loadJsonWithFallback_error_eq {α : Type _} :
    ∀ (rs : List (Option α)) (msg : String),
      loadJsonWithFallback rs = Except.error msg → msg = "Unable to load JSON"
  | [], msg, h => by
    simp only [loadJsonWithFallback, Except.error.injEq] at h
    exact h.symm
  | some v :: rest, msg, h => by
    simp [loadJsonWithFallback] at h
  | none :: rest, msg, h =>
    loadJsonWithFallback_error_eq rest msg (by simpa [loadJsonWithFallback] using h)

/-- C7: once the load completes, the session leaves `loading` for `ready`
exactly when at least one question survives normalization; it reaches
`error` when the question resource fails or when zero questions survive,
and the two error cases surface distinct messages (the thrown
`Unable to load JSON` versus the no-valid-questions message). -/
theorem load_spec (qres : List (Option (List Question)))
    (bres : List (Option (List String))) (qrand brand : Nat → Nat)
    (s : Session) (hs : s.state = LoadState.loading) :
    (∀ raw, loadJsonWithFallback qres = Except.ok raw →
      (((load qres bres qrand brand s).state = LoadState.ready ↔
          normalizeQuestions raw ≠ [])
        ∧ (normalizeQuestions raw = [] →
            (load qres bres qrand brand s).state = LoadState.error
            ∧ (load qres bres qrand brand s).errorMessage =
                "Нет подходящих вопросов в файле.")))
  ∧ (∀ msg, loadJsonWithFallback qres = Except.error msg →
      (load qres bres qrand brand s).state = LoadState.error
      ∧ (load qres bres qrand brand s).errorMessage = msg
      ∧ msg ≠ "Нет подходящих вопросов в файле.") := by
  constructor
  · intro raw hraw
    have hlen : (shuffle qrand (normalizeQuestions raw)).length =
        (normalizeQuestions raw).length := shuffle_length qrand _
    unfold load
    rw [hraw]
    by_cases hnil : normalizeQuestions raw = []
    · simp [hnil, hlen, List.length_eq_zero] at hlen ⊢
      simp [shuffle, fyLoop, hnil, hlen]
    · have hpos : (normalizeQuestions raw).length ≠ 0 := by
        simpa [List.length_eq_zero] using hnil
      simp only []
      rw [if_pos (by simp [hlen, hpos]), if_pos (by simp [hlen, hpos])]
      simp [hnil]
  · intro msg hmsg
    unfold load
    rw [hmsg]
    refine ⟨rfl, rfl, ?_⟩
    rw [loadJsonWithFallback_error_eq qres msg hmsg]
    decide

/-- Witness for C7: a resource holding the sample question makes the
session ready; a resource holding an empty array yields `error` with the
no-valid-questions message; an unreachable resource yields `error` with the
distinct thrown message. -/
theorem load_spec_witness :
    ((load [some [sampleQuestion]] [] id id initialSession).state =
        LoadState.ready ↔ normalizeQuestions [sampleQuestion] ≠ [])
  ∧ ((load [some []] [] id id initialSession).state = LoadState.error
      ∧ (load [some []] [] id id initialSession).errorMessage =
          "Нет подходящих вопросов в файле.")
  ∧ ((load [none] [] id id initialSession).state = LoadState.error
      ∧ (load [none] [] id id initialSession).errorMessage = "Unable to load JSON"
      ∧ "Unable to load JSON" ≠ "Нет подходящих вопросов в файле.") :=
  ⟨((load_spec [some [sampleQuestion]] [] id id initialSession rfl).1
      [sampleQuestion] rfl).1,
   ((load_spec [some []] [] id id initialSession rfl).1 [] rfl).2 rfl,
   (load_spec [none] [] id id initialSession rfl).2 "Unable to load JSON" rfl⟩

/-- C8: a failure of the background resource is absorbed: the pool degrades
to the empty list (and the per-question assignment to all-`null`), and the
session still becomes ready provided the question load succeeds with at
least one valid question. -/
theorem load_background_failure_absorbed
    (qres : List (Option (List Question)))
    (bres : List (Option (List String))) (qrand brand : Nat → Nat)
    (s : Session) (raw : List Question) (msg : String)
    (hq : loadJsonWithFallback qres = Except.ok raw)
    (hne : normalizeQuestions raw ≠ [])
    (hb : loadJsonWithFallback bres = Except.error msg) :
    (load qres bres qrand brand s).state = LoadState.ready
  ∧ (load qres bres qrand brand s).backgrounds = []
  ∧ (load qres bres qrand brand s).backgroundMap =
      List.replicate (load qres bres qrand brand s).questions.length none := by
  have hlen : (shuffle qrand (normalizeQuestions raw)).length =
      (normalizeQuestions raw).length := shuffle_length qrand _
  have hpos : (normalizeQuestions raw).length ≠ 0 := by
    simpa [List.length_eq_zero] using hne
  unfold load
  rw [hq, hb]
  refine ⟨?_, rfl, ?_⟩
  · simp only []
    rw [if_pos (by simp [hlen, hpos])]
  · simp [createBackgroundMap]

/-- Witness for C8: questions load while both background candidates fail;
the session is ready with an empty pool and an all-`null` assignment. -/
theorem load_background_failure_absorbed_witness :
    (load [some [sampleQuestion]] [none, none] id id initialSession).state =
      LoadState.ready
  ∧ (load [some [sampleQuestion]] [none, none] id id initialSession).backgrounds = []
  ∧ (load [some [sampleQuestion]] [none, none] id id initialSession).backgroundMap =
      List.replicate
        (load [some [sampleQuestion]] [none, none] id id initialSession).questions.length
        none :=
  load_background_failure_absorbed [some [sampleQuestion]] [none, none] id id
    initialSession [sampleQuestion] "Unable to load JSON" rfl (by decide) rfl

/-! ## Normalization -/

/-- Trimming the empty string yields the empty string. -/
theorem jsTrim_empty : jsTrim "" = "" := rfl

/-- A string's `isEmpty` flag is `false` exactly when the string is
non-empty. -/
theorem isEmpty_false_iff (s : String) : s.isEmpty = false ↔ s ≠ "" := by
  rw [Bool.eq_false_iff]
  exact not_congr (String.isEmpty_iff s)

/-- C2: `normalizeQuestions` equals the spec's pipeline — trim the prompt
and every option's text (a missing prompt or text counting as the empty
string, a missing options field as the empty list), then keep exactly the
records with a non-empty trimmed prompt and exactly 4 options; the
survivors are a sublist (hence in their original relative order, options
untouched in order), every survivor has a non-empty prompt and 4 options,
and every raw record meeting the two criteria survives — in particular one
whose four option texts are all empty after trimming. -/
theorem normalizeQuestions_spec (raw : List Question) :
    normalizeQuestions raw =
      (raw.map fun q =>
          Question.mk (some (jsTrim (q.question.getD "")))
            (some ((q.options.getD []).map fun o =>
              QuestionOption.mk (some (jsTrim (o.text.getD ""))) o.right))).filter
        (fun q => !(q.question.getD "").isEmpty && (q.options.getD []).length == 4)
  ∧ List.Sublist (normalizeQuestions raw) (raw.map normalizeEntry)
  ∧ (∀ q ∈ normalizeQuestions raw,
      q.question.getD "" ≠ "" ∧ (q.options.getD []).length = 4)
  ∧ (∀ r ∈ raw, jsTrim (r.question.getD "") ≠ "" →
      (r.options.getD []).length = 4 →
      normalizeEntry r ∈ normalizeQuestions raw) := by
  refine ⟨?_, ?_, ?_, ?_⟩
  · unfold normalizeQuestions
    congr 1
    apply List.map_congr_left
    intro q _
    unfold normalizeEntry normalizeOption
    cases hq : q.question <;> cases ho : q.options <;>
      refine congrArg₂ Question.mk ?_ ?_ <;>
        simp [jsTrim_empty] <;>
          (intro o _; cases ht : o.text <;> simp [jsTrim_empty])
  · exact List.filter_sublist _
  · intro q hq
    have hk := (List.mem_filter.mp hq).2
    simp only [keepQuestion, Bool.and_eq_true, Bool.not_eq_true',
      isEmpty_false_iff, beq_iff_eq] at hk
    exact hk
  · intro r hr h1 h2
    refine List.mem_filter.mpr ⟨List.mem_map_of_mem normalizeEntry hr, ?_⟩
    simp only [keepQuestion, normalizeEntry, Bool.and_eq_true, Bool.not_eq_true',
      isEmpty_false_iff, beq_iff_eq]
    constructor
    · cases hq : r.question with
      | none =>
        rw [hq] at h1
        exact absurd jsTrim_empty h1
      | some t =>
        rw [hq] at h1
        simpa using h1
    · simpa using h2

/-- Witness for C2: a record with prompt `"  Q "` and four blank option
texts survives normalization (applying the completeness conjunct of the
theorem at that concrete record). -/
theorem normalizeQuestions_spec_witness :
    normalizeEntry blankOptionsQuestion ∈
      normalizeQuestions [blankOptionsQuestion] :=
  (normalizeQuestions_spec [blankOptionsQuestion]).2.2.2 blankOptionsQuestion
    (by simp) (by decide) (by decide)

/-! ## Idempotence of normalization -/

/-- Dropping a prefix satisfying `p` twice is the same as dropping it
once: the result of `dropWhile` starts with an element refuting `p` (or is
empty). -/
theorem dropWhile_dropWhile {α : Type _} (p : α → Bool) (l : List α) :
    (l.dropWhile p).dropWhile p = l.dropWhile p := by
  cases h : l.dropWhile p with
  | nil => rfl
  | cons a t =>
    have hhead := List.head?_dropWhile_not p l
    rw [h] at hhead
    simp only [List.head?_cons] at hhead
    simp [List.dropWhile_cons, hhead]

/-- A prefix of a list fixed by `dropWhile p` is itself fixed by
`dropWhile p`. -/
theorem dropWhile_fixed_of_isPrefix {α : Type _} (p : α → Bool)
    {k m : List α} (hk : k <+: m) (hm : m.dropWhile p = m) :
    k.dropWhile p = k := by
  cases k with
  | nil => rfl
  | cons a t =>
    obtain ⟨r, hr⟩ := hk
    have ha : p a = false := by
      have hhead := List.head?_dropWhile_not p m
      rw [hm, ← hr] at hhead
      simpa using hhead
    simp [List.dropWhile_cons, ha]

/-- Trimming a list from both ends is idempotent. -/
theorem trimBoth_idem {α : Type _} (p : α → Bool) (l : List α) :
    (((((((l.dropWhile p).reverse.dropWhile p).reverse).dropWhile
        p).reverse).dropWhile p).reverse) =
      ((l.dropWhile p).reverse.dropWhile p).reverse := by
  set m := l.dropWhile p with hm
  set k := (m.reverse.dropWhile p).reverse with hk
  have hmfix : m.dropWhile p = m := by
    rw [hm]; exact dropWhile_dropWhile p l
  have hsuf : k.reverse <:+ m.reverse := by
    rw [hk, List.reverse_reverse]
    exact List.dropWhile_suffix p
  have hkfix : k.dropWhile p = k :=
    dropWhile_fixed_of_isPrefix p (List.reverse_suffix.mp hsuf) hmfix
  rw [hkfix, hk, List.reverse_reverse, dropWhile_dropWhile]

/-- JavaScript `trim` is idempotent. -/
theorem jsTrim_idem (s : String) : jsTrim (jsTrim s) = jsTrim s := by
  unfold jsTrim
  exact congrArg String.mk (trimBoth_idem Char.isWhitespace s.data)

/-- The per-option normalization step is idempotent. -/
theorem normalizeOption_idem (o : QuestionOption) :
    normalizeOption (normalizeOption o) = normalizeOption o := by
  unfold normalizeOption
  cases ht : o.text <;> simp [jsTrim_empty, jsTrim_idem]

/-- The per-record normalization step is idempotent. -/
theorem normalizeEntry_idem (q : Question) :
    normalizeEntry (normalizeEntry q) = normalizeEntry q := by
  unfold normalizeEntry
  refine congrArg₂ Question.mk ?_ ?_
  · cases hq : q.question <;> simp [jsTrim_empty, jsTrim_idem]
  · simp only [Option.getD_some, List.map_map]
    exact congrArg some (List.map_congr_left fun o _ => normalizeOption_idem o)

/-- C9: `normalizeQuestions` is idempotent — applying it to its own output
returns that output unchanged. -/
theorem normalizeQuestions_idem (raw : List Question) :
    normalizeQuestions (normalizeQuestions raw) = normalizeQuestions raw := by
  unfold normalizeQuestions
  have hmap : ((raw.map normalizeEntry).filter keepQuestion).map normalizeEntry
      = (raw.map normalizeEntry).filter keepQuestion := by
    have hfix : ∀ q ∈ (raw.map normalizeEntry).filter keepQuestion,
        normalizeEntry q = id q := by
      intro q hq
      obtain ⟨r, _, rfl⟩ := List.mem_map.mp (List.mem_filter.mp hq).1
      exact normalizeEntry_idem r
    rw [List.map_congr_left hfix, List.map_id]
  rw [hmap, List.filter_filter]
  exact List.filter_congr fun a _ => by simp

end Quiz
